import Mathlib

/-!
Verification of the inline-math recognition core: a shallow embedding of the
comment/string masker, the recursive-descent expression parser, the renderers,
the pattern detectors (power-call, generic-expression, loop-summation) and the
overlap resolver, translated from the TypeScript sources, together with proofs
of the specification's testable properties.

Texts are modelled as lists of characters; string positions are natural-number
offsets, exactly as the source indexes its strings.
-/

namespace InlineMath

/-- A character matched by the JavaScript regex class for line breaks used by
the scanner (the source's isNewline checks for LF or CR). -/
def isNewlineChar (c : Char) : Bool := c = '\n' || c = '\r'

/-- State of the masking scanner, the source's ScanState union
(normal, lineComment, blockComment, string, char, textBlock). -/
inductive ScanState where
  | normal
  | lineComment
  | blockComment
  | strLit
  | charLit
  | textBlock
  deriving DecidableEq, Repr

/-- The character state machine of maskJavaNonCode from scan.ts, one
constructor case per loop iteration.  The Boolean argument is the escape
flag.  The source writes blanks into an output array and advances its index
by two (comment openers, the block-comment closer) or three (triple quotes)
for multi-character tokens; here those iterations consume two or three list
cells and emit the corresponding blanks. -/
def maskGo : ScanState → Bool → List Char → List Char
  | _, _, [] => []
  | .normal, e, '/' :: '/' :: rest => ' ' :: ' ' :: maskGo .lineComment e rest
  | .normal, e, '/' :: '*' :: rest => ' ' :: ' ' :: maskGo .blockComment e rest
  | .normal, e, '"' :: '"' :: '"' :: rest => ' ' :: ' ' :: ' ' :: maskGo .textBlock e rest
  | .normal, _, '"' :: rest => ' ' :: maskGo .strLit false rest
  | .normal, _, '\'' :: rest => ' ' :: maskGo .charLit false rest
  | .normal, e, c :: rest => c :: maskGo .normal e rest
  | .lineComment, e, c :: rest =>
      if isNewlineChar c then c :: maskGo .normal e rest
      else ' ' :: maskGo .lineComment e rest
  | .blockComment, e, '*' :: '/' :: rest => ' ' :: ' ' :: maskGo .normal e rest
  | .blockComment, e, c :: rest =>
      (if isNewlineChar c then c else ' ') :: maskGo .blockComment e rest
  | .strLit, e, c :: rest =>
      if isNewlineChar c then c :: maskGo .normal false rest
      else if e then ' ' :: maskGo .strLit false rest
      else if c = '\\' then ' ' :: maskGo .strLit true rest
      else if c = '"' then ' ' :: maskGo .normal e rest
      else ' ' :: maskGo .strLit e rest
  | .charLit, e, c :: rest =>
      if isNewlineChar c then c :: maskGo .normal false rest
      else if e then ' ' :: maskGo .charLit false rest
      else if c = '\\' then ' ' :: maskGo .charLit true rest
      else if c = '\'' then ' ' :: maskGo .normal e rest
      else ' ' :: maskGo .charLit e rest
  | .textBlock, e, '"' :: '"' :: '"' :: rest => ' ' :: ' ' :: ' ' :: maskGo .normal e rest
  | .textBlock, e, c :: rest =>
      (if isNewlineChar c then c else ' ') :: maskGo .textBlock e rest

/-- maskJavaNonCode from scan.ts: mask Java source so comments and
string/char/text-block contents become spaces, newlines preserved. -/
def maskJavaNonCode (s : String) : String := ⟨maskGo .normal false s.data⟩

/-- The per-character contract of the masker: an output character is a blank
or the input character, and line breaks are kept verbatim. -/
def maskRel (o c : Char) : Prop :=
  (isNewlineChar c = true → o = c) ∧ (o = ' ' ∨ o = c)

theorem maskGo_forall₂ (st : ScanState) (e : Bool) (l : List Char) :
    List.Forall₂ maskRel (maskGo st e l) l := by
  induction st, e, l using maskGo.induct <;>
    simp only [maskGo] <;>
    (try split) <;> (try split) <;> (try split) <;> (try split) <;>
    simp_all [maskRel, List.forall₂_cons, isNewlineChar]

theorem maskGo_length (st : ScanState) (e : Bool) (l : List Char) :
    (maskGo st e l).length = l.length :=
  (maskGo_forall₂ st e l).length_eq

/-- C2: maskJavaNonCode is length-preserving, every line-break character of
the input appears unchanged at the same offset of the output, and every other
output character is either a blank or the corresponding input character. -/
theorem maskJavaNonCode_shape (s : String) (i : Nat) (o c : Char)
    (ho : (maskJavaNonCode s).data.get? i = some o)
    (hc : s.data.get? i = some c) :
    (maskJavaNonCode s).length = s.length ∧
      (isNewlineChar c = true → o = c) ∧ (o = ' ' ∨ o = c) := by
  have hf : List.Forall₂ maskRel (maskJavaNonCode s).data s.data :=
    maskGo_forall₂ .normal false s.data
  refine ⟨hf.length_eq, ?_⟩
  rcases List.get?_eq_some.mp ho with ⟨h1, e1⟩
  rcases List.get?_eq_some.mp hc with ⟨h2, e2⟩
  have hr := hf.get h1 h2
  rw [e1, e2] at hr
  exact hr

theorem maskJavaNonCode_shape_witness :
    (maskJavaNonCode "a//b\nc").length = ("a//b\nc" : String).length ∧
      (isNewlineChar '\n' = true → '\n' = '\n') ∧
      (('\n' : Char) = ' ' ∨ ('\n' : Char) = '\n') :=
  maskJavaNonCode_shape "a//b\nc" 4 '\n' '\n' (by decide) (by decide)

/-- Guard used to state that a character cannot combine with the next one
into a comment opener. -/
def adjOk (c : Char) : List Char → Bool
  | [] => true
  | d :: _ => !(c = '/' && (d = '/' || d = '*'))

/-- A text free of masking triggers: no quote characters and no
two-character comment opener anywhere.  A normal-state scan copies such a
text verbatim, which is what makes masking idempotent. -/
def noTrig : List Char → Bool
  | [] => true
  | [c] => !(c = '"' || c = '\'')
  | c :: d :: rest =>
      !(c = '"' || c = '\'') && !(c = '/' && (d = '/' || d = '*')) &&
        noTrig (d :: rest)

theorem noTrig_cons (c : Char) (t : List Char) :
    noTrig (c :: t) = (!(c = '"' || c = '\'') && adjOk c t && noTrig t) := by
  cases t <;> simp [noTrig, adjOk]

theorem adjOk_of_ne (c : Char) (hc : ¬c = '/') (t : List Char) : adjOk c t = true := by
  cases t <;> simp [adjOk, hc]

theorem noTrig_cons_safe (c : Char) (hc : ¬c = '"' ∧ ¬c = '\'' ∧ ¬c = '/')
    (t : List Char) (ht : noTrig t = true) : noTrig (c :: t) = true := by
  rw [noTrig_cons, adjOk_of_ne c hc.2.2]
  simp [hc.1, hc.2.1, ht]

theorem newline_safe (c : Char) (hc : isNewlineChar c = true) :
    ¬c = '"' ∧ ¬c = '\'' ∧ ¬c = '/' := by
  simp [isNewlineChar] at hc
  rcases hc with h | h <;> subst h <;> exact ⟨by decide, by decide, by decide⟩

theorem maskGo_normal_id (st : ScanState) (e : Bool) (l : List Char)
    (hst : st = ScanState.normal) (h : noTrig l = true) : maskGo st e l = l := by
  induction st, e, l using maskGo.induct <;>
    simp_all [maskGo, noTrig_cons, adjOk]

set_option linter.unreachableTactic false in
set_option linter.unnecessarySeqFocus false in
theorem noTrig_maskGo (st : ScanState) (e : Bool) (l : List Char) :
    noTrig (maskGo st e l) = true := by
  induction st, e, l using maskGo.induct
  case case7 e c rest h1 h2 h3 h4 h5 ih =>
    have hadj : adjOk c (maskGo ScanState.normal e rest) = true := by
      by_cases hc : c = '/'
      · subst hc
        cases rest with
        | nil => simp [maskGo, adjOk]
        | cons d r =>
          have hd1 : ¬d = '/' := fun hd => h1 r rfl (by rw [hd])
          have hd2 : ¬d = '*' := fun hd => h2 r rfl (by rw [hd])
          rcases List.forall₂_cons_right_iff.mp (maskGo_forall₂ .normal e (d :: r)) with
            ⟨o, t', hrel, _, heq⟩
          rw [heq]
          rcases hrel.2 with ho | ho <;> subst ho <;> simp [adjOk, hd1, hd2]
      · exact adjOk_of_ne c hc _
    simp_all [maskGo, noTrig_cons]
  all_goals
    simp_all [maskGo] <;> (try split) <;>
    (repeat' (first
      | assumption
      | exact noTrig_cons_safe _ (by decide) _ (by assumption)
      | apply noTrig_cons_safe _ (by decide)
      | apply noTrig_cons_safe _ (newline_safe _ (by assumption))
      | simp [noTrig]))

/-- C7: masking is idempotent on its own output: masking the masked output
again yields the same output. -/
theorem maskJavaNonCode_idempotent (s : String) :
    maskJavaNonCode (maskJavaNonCode s) = maskJavaNonCode s :=
  congrArg String.mk
    (maskGo_normal_id _ false _ rfl (noTrig_maskGo .normal false s.data))

/-! ## Character classes, whitespace and basic scanning helpers

The sources test characters with the JavaScript regexes /[A-Za-z_]/,
/[A-Za-z0-9_]/, /[0-9]/ and /\s/, and use String.prototype.trim and
String.prototype.slice.  Texts are lists of characters and positions are
offsets; text[i] (which may be undefined) is modelled by an optional lookup.
-/

/-- An ASCII letter. -/
def isAsciiLetter (c : Char) : Bool :=
  ('A' ≤ c && c ≤ 'Z') || ('a' ≤ c && c ≤ 'z')

/-- The class [A-Za-z_] (isIdentStart in the source). -/
def isIdentStart (c : Char) : Bool := isAsciiLetter c || c = '_'

/-- The class [A-Za-z0-9_] (isIdentPart / isIdentChar / \w in the source). -/
def isIdentPart (c : Char) : Bool :=
  isAsciiLetter c || ('0' ≤ c && c ≤ '9') || c = '_'

/-- The class [0-9] (isDigit in the source). -/
def isDigitChar (c : Char) : Bool := '0' ≤ c && c ≤ '9'

/-- The JavaScript whitespace class \s (also the set trimmed by trim()). -/
def isWsChar (c : Char) : Bool :=
  c = ' ' || c = '\t' || c = '\n' || c = '\x0b' || c = '\x0c' || c = '\r' ||
  c = '\u00A0' || c = '\u1680' || ('\u2000' ≤ c && c ≤ '\u200A') ||
  c = '\u2028' || c = '\u2029' || c = '\u202F' || c = '\u205F' ||
  c = '\u3000' || c = '\uFEFF'

/-- text[i], which in JavaScript may be undefined past the end. -/
def chAt (t : List Char) (i : Nat) : Option Char := t[i]?

/-- text.slice(a, b) for 0 ≤ a, b (empty when a ≥ b, clamped at the end). -/
def slice (t : List Char) (a b : Nat) : List Char := (t.drop a).take (b - a)

/-- String.prototype.trim. -/
def trimJS (t : List Char) : List Char :=
  ((t.dropWhile isWsChar).reverse.dropWhile isWsChar).reverse

/-- text.startsWith(pat, i). -/
def startsWithAt (t pat : List Char) (i : Nat) : Bool :=
  (t.drop i).take pat.length = pat

/-- skipWs from the source: the first position at or after i holding a
non-whitespace character (the length of the text if there is none). -/
def skipWs (t : List Char) (i : Nat) : Nat :=
  i + ((t.drop i).takeWhile isWsChar).length

/-- The position ending the run of [A-Za-z0-9_] characters starting at i
(the source's while-loops over isIdentPart). -/
def identEnd (t : List Char) (i : Nat) : Nat :=
  i + ((t.drop i).takeWhile isIdentPart).length

/-- The position ending the run of digits starting at i. -/
def digitEnd (t : List Char) (i : Nat) : Nat :=
  i + ((t.drop i).takeWhile isDigitChar).length

/-- The dotted-segment loop of parseQualifiedIdent: repeatedly consume
whitespace, a dot, whitespace and a further identifier segment, extending
the accumulated name.  Fuel bounds the number of segments; the wrapper
passes more fuel than any text can consume. -/
def qualLoop (t : List Char) : Nat → Nat → List Char → (List Char × Nat)
  | 0, j, name => (name, j)
  | fuel+1, j, name =>
      let j0 := skipWs t j
      if chAt t j0 = some '.' then
        let j1 := skipWs t (j0 + 1)
        if (chAt t j1).any isIdentStart then
          let e := identEnd t j1
          qualLoop t fuel e (name ++ '.' :: slice t j1 e)
        else (name, j)
      else (name, j)

/-- parseQualifiedIdent from the expression module: an identifier segment
followed by whitespace-tolerant dotted segments. -/
def parseQualifiedIdent (t : List Char) (i : Nat) : Option (List Char × Nat) :=
  if (chAt t i).any isIdentStart then
    let e := identEnd t i
    some (qualLoop t (t.length + 1) e (slice t i e))
  else none

/-- parseNumber from the expression module: digits with an optional single
dot followed by digits. -/
def parseNumber (t : List Char) (i : Nat) : Option (List Char × Nat) :=
  if (chAt t i).any isDigitChar then
    let j := digitEnd t i
    let j2 :=
      if chAt t j = some '.' && (chAt t (j + 1)).any isDigitChar then
        digitEnd t (j + 1)
      else j
    some (slice t i j2, j2)
  else none

/-- The scanning loop of findMatching: depth bookkeeping over the bracket
pair, returning the index that closes the bracket opened at the start
index.  The depth is an integer because the source decrements through
zero without clamping. -/
def findMatchingLoop (t : List Char) (openCh closeCh : Char) :
    Nat → Nat → Int → Option Nat
  | 0, _, _ => none
  | fuel+1, i, depth =>
      match chAt t i with
      | none => none
      | some ch =>
          if ch = openCh then findMatchingLoop t openCh closeCh fuel (i + 1) (depth + 1)
          else if ch = closeCh then
            if depth - 1 = 0 then some i
            else findMatchingLoop t openCh closeCh fuel (i + 1) (depth - 1)
          else findMatchingLoop t openCh closeCh fuel (i + 1) depth

/-- findMatching(text, openIndex, openCh, closeCh) from the source. -/
def findMatching (t : List Char) (openIndex : Nat) (openCh closeCh : Char) :
    Option Nat :=
  findMatchingLoop t openCh closeCh (t.length + 1) openIndex 0

/-- The loop of splitArgsText: split on top-level commas, tracking paren,
brace and bracket depths (clamped at zero with Math.max), with a sentinel
comma at the end of the text; empty (after trim) parts are dropped. -/
def splitArgsLoop (t : List Char) :
    Nat → Nat → Nat → Nat → Nat → Nat → List (List Char)
  | 0, _, _, _, _, _ => []
  | fuel+1, i, start, dp, db, dk =>
      if i > t.length then []
      else
        let ch := (chAt t i).getD ','
        let dp' := if ch = '(' then dp + 1 else if ch = ')' then dp - 1 else dp
        let db' := if ch = '\x7b' then db + 1 else if ch = '\x7d' then db - 1 else db
        let dk' := if ch = '[' then dk + 1 else if ch = ']' then dk - 1 else dk
        if (ch = ',' && dp' = 0 && db' = 0 && dk' = 0) || i = t.length then
          let part := trimJS (slice t start i)
          if part.length > 0 then
            part :: splitArgsLoop t fuel (i + 1) (i + 1) dp' db' dk'
          else splitArgsLoop t fuel (i + 1) (i + 1) dp' db' dk'
        else splitArgsLoop t fuel (i + 1) start dp' db' dk'

/-- splitArgsText from the expression module. -/
def splitArgsText (t : List Char) : List (List Char) :=
  splitArgsLoop t (t.length + 2) 0 0 0 0 0

/-! ## The expression AST and the renderers -/

/-- The bracket kind of a group node: '(' or '{' in the source. -/
inductive BracketKind where
  | paren
  | curly
  deriving DecidableEq, Repr

/-- The sign of a unary node: '+' or '-' in the source. -/
inductive SignOp where
  | plus
  | minus
  deriving DecidableEq, Repr

/-- A binary operator: the closed union '+' | '-' | '*' | '/'. -/
inductive BinOp where
  | add
  | sub
  | mul
  | div
  deriving DecidableEq, Repr

/-- The source character of a sign. -/
def SignOp.toChar : SignOp → Char
  | .plus => '+'
  | .minus => '-'

/-- The source character of a binary operator. -/
def BinOp.toChar : BinOp → Char
  | .add => '+'
  | .sub => '-'
  | .mul => '*'
  | .div => '/'

/-- The Expr union of the expression module: number, ident, raw, group,
unary, binary, member, index, call and new nodes. -/
inductive Expr where
  | number (value : String)
  | ident (name : String)
  | raw (text : String)
  | group (bracket : BracketKind) (expr : Expr)
  | unary (op : SignOp) (expr : Expr)
  | binary (op : BinOp) (left : Expr) (right : Expr)
  | member (object : Expr) (memberName : String)
  | index (object : Expr) (indexExpr : Expr)
  | call (callee : Expr) (args : List Expr)
  | new (ctor : Expr) (args : List Expr)
  deriving Repr

/-- The Prec enum: Add = 10, Mul = 20, Unary = 30, Primary = 40. -/
def precOf (e : Expr) : Nat :=
  match e with
  | .binary op _ _ => if op = .add || op = .sub then 10 else 20
  | .unary _ _ => 30
  | _ => 40

/-- The character class [{}_^%$#&] of escapeLatex's second replace. -/
def isLatexSpecial (c : Char) : Bool :=
  c = '\x7b' || c = '\x7d' || c = '_' || c = '^' || c = '%' || c = '$' ||
    c = '#' || c = '&'

/-- The first replace of escapeLatex: every backslash becomes the fifteen
characters of \textbackslash followed by an open and a close brace. -/
def latexEscapeBackslashes : List Char → List Char
  | [] => []
  | c :: rest =>
      if c = '\\' then '\\' :: "textbackslash\x7b\x7d".data ++ latexEscapeBackslashes rest
      else c :: latexEscapeBackslashes rest

/-- The second replace of escapeLatex: prefix a backslash to each reserved
character. -/
def latexEscapeSpecials : List Char → List Char
  | [] => []
  | c :: rest =>
      if isLatexSpecial c then '\\' :: c :: latexEscapeSpecials rest
      else c :: latexEscapeSpecials rest

/-- escapeLatex: the two sequential replace calls of the source; the second
pass also escapes the braces introduced by the first. -/
def escapeLatex (s : String) : String :=
  ⟨latexEscapeSpecials (latexEscapeBackslashes s.data)⟩

/-- latexWrap: parenthesize a child whose precedence is below what its
parent position requires.  The source recomputes exprToLatex on the child;
here the caller passes that rendering in, so that the renderer recursion
stays structural. -/
def latexWrap (e : Expr) (latex : String) (parentPrec : Nat) : String :=
  if precOf e < parentPrec then "\\left(" ++ latex ++ "\\right)" else latex

mutual

/-- exprToLatex from the expression module. -/
def exprToLatex : Expr → String
  | .number v => escapeLatex v
  | .ident n => escapeLatex n
  | .raw t => "\\text\x7b" ++ escapeLatex t ++ "\x7d"
  | .group b e =>
      if b = .curly then "\\left\\\x7b" ++ exprToLatex e ++ "\\right\\\x7d"
      else "\\left(" ++ exprToLatex e ++ "\\right)"
  | .unary op e => escapeLatex ⟨[op.toChar]⟩ ++ latexWrap e (exprToLatex e) 30
  | .binary op l r =>
      if op = .div then
        "\\frac\x7b" ++ exprToLatex l ++ "\x7d\x7b" ++ exprToLatex r ++ "\x7d"
      else
        let opLatex := if op = .mul then "\\cdot" else escapeLatex ⟨[op.toChar]⟩
        let parentPrec := if op = .add || op = .sub then 10 else 20
        latexWrap l (exprToLatex l) parentPrec ++ " " ++ opLatex ++ " " ++
          latexWrap r (exprToLatex r) (parentPrec + 1)
  | .member o m => exprToLatex o ++ "." ++ escapeLatex m
  | .index o ix => exprToLatex o ++ "_\x7b" ++ exprToLatex ix ++ "\x7d"
  | .call f args =>
      exprToLatex f ++ "\\left(" ++ String.intercalate ", " (exprListToLatex args) ++ "\\right)"
  | .new c args =>
      "\\operatorname\x7bnew\x7d\\," ++ exprToLatex c ++ "\\left(" ++
        String.intercalate ", " (exprListToLatex args) ++ "\\right)"

/-- The argument lists of call and new nodes, rendered elementwise. -/
def exprListToLatex : List Expr → List String
  | [] => []
  | e :: es => exprToLatex e :: exprListToLatex es

end

mutual

/-- exprContainsOperator from the expression module: whether the tree holds
at least one binary node. -/
def exprContainsOperator : Expr → Bool
  | .binary _ _ _ => true
  | .unary _ e => exprContainsOperator e
  | .group _ e => exprContainsOperator e
  | .member o _ => exprContainsOperator o
  | .index o ix => exprContainsOperator o || exprContainsOperator ix
  | .call f args => exprListContainsOperator args || exprContainsOperator f
  | .new c args => exprListContainsOperator args || exprContainsOperator c
  | _ => false

/-- args.some(exprContainsOperator). -/
def exprListContainsOperator : List Expr → Bool
  | [] => false
  | e :: es => exprContainsOperator e || exprListContainsOperator es

end

/-- The superscript-digit table of the source. -/
def supChar (c : Char) : Char :=
  if c = '0' then '⁰' else if c = '1' then '¹' else if c = '2' then '²'
  else if c = '3' then '³' else if c = '4' then '⁴' else if c = '5' then '⁵'
  else if c = '6' then '⁶' else if c = '7' then '⁷' else if c = '8' then '⁸'
  else if c = '9' then '⁹' else c

/-- toSuperscriptDigits: defined only on non-empty all-digit strings. -/
def toSuperscriptDigits (value : String) : Option String :=
  if value.data.length > 0 && value.data.all isDigitChar then
    some ⟨value.data.map supChar⟩
  else none

mutual

/-- exprToInlineText from the expression module: the compact Unicode
rendering (middle dot for *, fraction slash for /). -/
def exprToInlineText : Expr → String
  | .number v => v
  | .ident n => n
  | .raw t => t
  | .group b e =>
      if b = .curly then "\x7b" ++ exprToInlineText e ++ "\x7d"
      else "(" ++ exprToInlineText e ++ ")"
  | .unary op e => ⟨[op.toChar]⟩ ++ exprToInlineText e
  | .binary op l r =>
      let opText := if op = .mul then "·" else if op = .div then "⁄" else (⟨[op.toChar]⟩ : String)
      exprToInlineText l ++ opText ++ exprToInlineText r
  | .member o m => exprToInlineText o ++ "." ++ m
  | .index o ix => exprToInlineText o ++ "[" ++ exprToInlineText ix ++ "]"
  | .call f args =>
      exprToInlineText f ++ "(" ++ String.intercalate "," (exprListToInlineText args) ++ ")"
  | .new c args =>
      "new " ++ exprToInlineText c ++ "(" ++ String.intercalate "," (exprListToInlineText args) ++ ")"

/-- The argument lists of call and new nodes, rendered elementwise. -/
def exprListToInlineText : List Expr → List String
  | [] => []
  | e :: es => exprToInlineText e :: exprListToInlineText es

end

/-! ## The recursive-descent parser

The Parser class threads a mutable position through its methods; here each
method maps a position to an optional parse result together with the new
position.  The grammar recurses through bracketed sub-expressions and the
module-level parseExpression is re-entered on comma-split argument slices,
so every function takes a fuel argument that bounds the recursion depth and
is decremented on each call; the wrappers pass far more fuel than any text
can consume, and every property proved below holds for every fuel value. -/

mutual

/-- Parser.parseExpression / parseAdd: a left-associative chain of + and -
over multiplicative operands. -/
def parseAddF : Nat → List Char → Nat → Option (Expr × Nat)
  | 0, _, _ => none
  | n+1, t, i =>
      match parseMulF n t i with
      | none => none
      | some (left, j) => parseAddLoopF n t left j
termination_by structural fuel _ _ => fuel

/-- The while-loop of parseAdd.  The loop advances the position over
whitespace before inspecting the operator, so the position it returns on
exit sits after any trailing whitespace it inspected. -/
def parseAddLoopF : Nat → List Char → Expr → Nat → Option (Expr × Nat)
  | 0, _, _, _ => none
  | n+1, t, left, i =>
      let j := skipWs t i
      if chAt t j = some '+' then
        match parseMulF n t (j + 1) with
        | none => none
        | some (r, k) => parseAddLoopF n t (.binary .add left r) k
      else if chAt t j = some '-' then
        match parseMulF n t (j + 1) with
        | none => none
        | some (r, k) => parseAddLoopF n t (.binary .sub left r) k
      else some (left, j)
termination_by structural fuel _ _ _ => fuel

/-- parseMul: a left-associative chain of * and / over unary operands. -/
def parseMulF : Nat → List Char → Nat → Option (Expr × Nat)
  | 0, _, _ => none
  | n+1, t, i =>
      match parseUnaryF n t i with
      | none => none
      | some (left, j) => parseMulLoopF n t left j
termination_by structural fuel _ _ => fuel

/-- The while-loop of parseMul. -/
def parseMulLoopF : Nat → List Char → Expr → Nat → Option (Expr × Nat)
  | 0, _, _, _ => none
  | n+1, t, left, i =>
      let j := skipWs t i
      if chAt t j = some '*' then
        match parseUnaryF n t (j + 1) with
        | none => none
        | some (r, k) => parseMulLoopF n t (.binary .mul left r) k
      else if chAt t j = some '/' then
        match parseUnaryF n t (j + 1) with
        | none => none
        | some (r, k) => parseMulLoopF n t (.binary .div left r) k
      else some (left, j)
termination_by structural fuel _ _ _ => fuel

/-- parseUnary: prefix + and - signs over a primary. -/
def parseUnaryF : Nat → List Char → Nat → Option (Expr × Nat)
  | 0, _, _ => none
  | n+1, t, i =>
      let j := skipWs t i
      if chAt t j = some '+' then
        match parseUnaryF n t (j + 1) with
        | none => none
        | some (e, k) => some (.unary .plus e, k)
      else if chAt t j = some '-' then
        match parseUnaryF n t (j + 1) with
        | none => none
        | some (e, k) => some (.unary .minus e, k)
      else parsePrimaryF n t j
termination_by structural fuel _ _ => fuel

/-- parsePrimary: a new-construct, a parenthesized or brace-grouped
sub-expression, a numeric literal, or a dotted identifier with postfix
operations.  The new-check tests the character after the keyword with the
regex /\b/ on that single character, which holds exactly for word
characters (and is false for the space substituted past the end). -/
def parsePrimaryF : Nat → List Char → Nat → Option (Expr × Nat)
  | 0, _, _ => none
  | n+1, t, i =>
      let i0 := skipWs t i
      if startsWithAt t "new".data i0 && isIdentPart ((chAt t (i0 + 3)).getD ' ') then
        match parseQualifiedIdent t (skipWs t (i0 + 3)) with
        | some (name, nend) =>
            let j := skipWs t nend
            if chAt t j = some '(' then
              match findMatching t j '(' ')' with
              | some close =>
                  let args := parseArgsF n (splitArgsText (slice t (j + 1) close))
                  some (.new (.ident ⟨name⟩) args, close + 1)
              | none => some (.raw ⟨slice t j nend⟩, j)
            else some (.raw ⟨slice t j nend⟩, j)
        | none => parsePrimaryAfterNewF n t i0
      else parsePrimaryAfterNewF n t i0
termination_by structural fuel _ _ => fuel

/-- The remainder of parsePrimary past the new-check: group, number,
identifier-with-postfix, otherwise no match. -/
def parsePrimaryAfterNewF : Nat → List Char → Nat → Option (Expr × Nat)
  | 0, _, _ => none
  | n+1, t, i0 =>
      if chAt t i0 = some '(' || chAt t i0 = some '\x7b' then
        let closeCh := if chAt t i0 = some '(' then ')' else '\x7d'
        let bk : BracketKind := if chAt t i0 = some '(' then .paren else .curly
        match parseAddF n t (i0 + 1) with
        | none => none
        | some (e, j) =>
            let j1 := skipWs t j
            if chAt t j1 = some closeCh then some (.group bk e, j1 + 1)
            else none
      else
        match parseNumber t i0 with
        | some (v, nend) => some (.number ⟨v⟩, nend)
        | none =>
            match parseQualifiedIdent t i0 with
            | some (name, nend) => some (parsePostfixF n t (.ident ⟨name⟩) nend)
            | none => none
termination_by structural fuel _ _ => fuel

/-- The postfix while-loop: member access, index access and calls applied
left to right.  Like the operator loops it skips whitespace before testing
the next character, so its exit position sits after that whitespace. -/
def parsePostfixF : Nat → List Char → Expr → Nat → (Expr × Nat)
  | 0, _, e, i => (e, i)
  | n+1, t, e, i =>
      let j := skipWs t i
      if chAt t j = some '.' then
        match parseQualifiedIdent t (skipWs t (j + 1)) with
        | none => (e, j)
        | some (mname, mend) => parsePostfixF n t (.member e ⟨mname⟩) mend
      else if chAt t j = some '[' then
        match findMatching t j '[' ']' with
        | none => (e, j)
        | some close =>
            let inside := trimJS (slice t (j + 1) close)
            let idxExpr := (parseExpressionF n inside).getD (.raw ⟨inside⟩)
            parsePostfixF n t (.index e idxExpr) (close + 1)
      else if chAt t j = some '(' then
        match findMatching t j '(' ')' with
        | none => (e, j)
        | some close =>
            let args := parseArgsF n (splitArgsText (slice t (j + 1) close))
            parsePostfixF n t (.call e args) (close + 1)
      else (e, j)
termination_by structural fuel _ _ _ => fuel

/-- argParts.map(p => parseExpression(p) ?? raw p) over the comma-split
argument slices. -/
def parseArgsF : Nat → List (List Char) → List Expr
  | 0, _ => []
  | n+1, ps =>
      match ps with
      | [] => []
      | p :: rest => ((parseExpressionF n p).getD (.raw ⟨p⟩)) :: parseArgsF n rest

termination_by structural fuel _ => fuel
/-- The module-level parseExpression of the expression module: reject any
text containing a caret, parse from position zero and require that (after
trailing whitespace) the whole text was consumed. -/
def parseExpressionF (fuel : Nat) (t : List Char) : Option Expr :=
  if t.contains '^' then none
  else
    match fuel with
    | 0 => none
    | n+1 =>
        match parseAddF n t 0 with
        | none => none
        | some (e, i) => if skipWs t i = t.length then some e else none

termination_by structural fuel
end

/-- Ample fuel for a text: the recursion depth of the parser on any text is
far below this bound. -/
def fuelFor (t : List Char) : Nat := 16 * (t.length + 2)

/-- parseExpression(text) from the expression module (the exact entry
point used by the detectors). -/
def parseExpression (s : String) : Option Expr :=
  parseExpressionF (fuelFor s.data) s.data

/-- parseExpressionAt(text, start) from the expression module: parse the
maximal expression starting at the offset, rejecting the match if the
consumed span contains a caret. -/
def parseExpressionAt (s : String) (start : Nat) : Option (Expr × Nat) :=
  match parseAddF (fuelFor s.data) s.data start with
  | none => none
  | some (e, endPos) =>
      if (slice s.data start endPos).contains '^' then none
      else some (e, endPos)


/-- C1: parseExpression (the parse-exact entry point) returns no match for
every text containing a caret, regardless of whether the rest of the text
would parse. -/
theorem parseExpression_rejects_caret (s : String)
    (h : s.data.contains '^' = true) : parseExpression s = none := by
  have hm : '^' ∈ s.data := by simpa using h
  unfold parseExpression parseExpressionF
  simp [hm]

theorem parseExpression_rejects_caret_witness :
    ("1 + 2^3" : String).data.contains '^' = true ∧
      parseExpression "1 + 2^3" = none :=
  ⟨by decide, parseExpression_rejects_caret "1 + 2^3" (by decide)⟩

/-! ## Round-trip rendering over pure arithmetic trees (C9) -/

/-- Trees built purely from number, identifier and binary nodes. -/
def onlyArithNodes : Expr → Bool
  | .number _ => true
  | .ident _ => true
  | .binary _ l r => onlyArithNodes l && onlyArithNodes r
  | _ => false

/-- The number and identifier payload texts are non-empty and caret-free,
as every payload produced by the parser is. -/
def payloadsClean : Expr → Bool
  | .number v => !v.data.isEmpty && !v.data.contains '^'
  | .ident n => !n.data.isEmpty && !n.data.contains '^'
  | .binary _ l r => payloadsClean l && payloadsClean r
  | _ => true

theorem caret_not_mem_latexEscapeBackslashes (l : List Char) (h : ¬ '^' ∈ l) :
    ¬ '^' ∈ latexEscapeBackslashes l := by
  induction l with
  | nil => simp [latexEscapeBackslashes]
  | cons c rest ih =>
      simp only [List.mem_cons, not_or] at h
      simp only [latexEscapeBackslashes]
      split
      · intro hm
        rcases List.mem_cons.mp hm with h1 | hm2
        · exact absurd h1 (by decide)
        · rcases List.mem_append.mp hm2 with h2 | h3
          · exact absurd h2 (by decide)
          · exact ih h.2 h3
      · intro hm
        rcases List.mem_cons.mp hm with h1 | h2
        · exact h.1 h1
        · exact ih h.2 h2

theorem caret_not_mem_latexEscapeSpecials (l : List Char) (h : ¬ '^' ∈ l) :
    ¬ '^' ∈ latexEscapeSpecials l := by
  induction l with
  | nil => simp [latexEscapeSpecials]
  | cons c rest ih =>
      simp only [List.mem_cons, not_or] at h
      simp only [latexEscapeSpecials]
      split
      · intro hm
        rcases List.mem_cons.mp hm with h1 | hm2
        · exact absurd h1 (by decide)
        · rcases List.mem_cons.mp hm2 with h2 | h3
          · exact h.1 h2
          · exact ih h.2 h3
      · intro hm
        rcases List.mem_cons.mp hm with h1 | h2
        · exact h.1 h1
        · exact ih h.2 h2

theorem latexEscapeBackslashes_ne_nil (l : List Char) (h : l ≠ []) :
    latexEscapeBackslashes l ≠ [] := by
  cases l with
  | nil => exact absurd rfl h
  | cons c rest => simp only [latexEscapeBackslashes]; split <;> simp

theorem latexEscapeSpecials_ne_nil (l : List Char) (h : l ≠ []) :
    latexEscapeSpecials l ≠ [] := by
  cases l with
  | nil => exact absurd rfl h
  | cons c rest => simp only [latexEscapeSpecials]; split <;> simp

theorem escapeLatex_no_caret (s : String) (h : ¬ '^' ∈ s.data) :
    ¬ '^' ∈ (escapeLatex s).data :=
  caret_not_mem_latexEscapeSpecials _ (caret_not_mem_latexEscapeBackslashes _ h)

theorem escapeLatex_ne_nil (s : String) (h : s.data ≠ []) :
    (escapeLatex s).data ≠ [] :=
  latexEscapeSpecials_ne_nil _ (latexEscapeBackslashes_ne_nil _ h)

/-- String concatenation concatenates the character lists definitionally. -/
theorem data_append (a b : String) : (a ++ b).data = a.data ++ b.data := rfl

theorem ne_nil_of_isEmpty_eq_false {l : List Char} (h : l.isEmpty = false) :
    l ≠ [] := by
  cases l <;> simp_all

theorem not_mem_of_contains_eq_false {l : List Char} {c : Char}
    (h : l.contains c = false) : ¬c ∈ l := by
  simpa using h

theorem latexWrap_no_caret (e : Expr) (latex : String) (p : Nat)
    (h : ¬ '^' ∈ latex.data) : ¬ '^' ∈ (latexWrap e latex p).data := by
  unfold latexWrap
  split
  · simp only [data_append, List.mem_append, not_or]
    exact ⟨⟨by decide, h⟩, by decide⟩
  · exact h

theorem latexWrap_ne_nil (e : Expr) (latex : String) (p : Nat)
    (h : latex.data ≠ []) : (latexWrap e latex p).data ≠ [] := by
  unfold latexWrap
  split
  · simp [data_append]
  · exact h

/-- C9 counterexample: the payload of a Number node may be any string, so a
tree built purely from Number/Identifier/Binary nodes can render to a
string containing a literal caret: both renderers emit the caret of the
payload "^". -/
theorem renderers_pure_arith_counterexample :
    onlyArithNodes (Expr.number "^") = true ∧
      (exprToInlineText (Expr.number "^")).data.contains '^' = true ∧
      (exprToLatex (Expr.number "^")).data.contains '^' = true := by
  decide

/-- C9 (amended): for every Expr built purely from Number, Identifier and
Binary(+,-,*,/) nodes whose number and identifier payload texts are
non-empty and contain no caret (as all parser-produced payloads are), both
exprToInlineText and exprToLatex produce a non-empty string containing no
literal caret. -/
theorem renderers_pure_arith :
    ∀ (e : Expr), onlyArithNodes e = true → payloadsClean e = true →
      (exprToInlineText e).data ≠ [] ∧ ¬ '^' ∈ (exprToInlineText e).data ∧
        (exprToLatex e).data ≠ [] ∧ ¬ '^' ∈ (exprToLatex e).data
  | .number v, _, h2 => by
      simp only [payloadsClean, Bool.and_eq_true, Bool.not_eq_true'] at h2
      have hne := ne_nil_of_isEmpty_eq_false h2.1
      have hnc := not_mem_of_contains_eq_false h2.2
      exact ⟨hne, hnc, escapeLatex_ne_nil v hne, escapeLatex_no_caret v hnc⟩
  | .ident n, _, h2 => by
      simp only [payloadsClean, Bool.and_eq_true, Bool.not_eq_true'] at h2
      have hne := ne_nil_of_isEmpty_eq_false h2.1
      have hnc := not_mem_of_contains_eq_false h2.2
      exact ⟨hne, hnc, escapeLatex_ne_nil n hne, escapeLatex_no_caret n hnc⟩
  | .binary op l r, h1, h2 => by
      simp only [onlyArithNodes, payloadsClean, Bool.and_eq_true] at h1 h2
      obtain ⟨il1, il2, il3, il4⟩ := renderers_pure_arith l h1.1 h2.1
      obtain ⟨ir1, ir2, ir3, ir4⟩ := renderers_pure_arith r h1.2 h2.2
      refine ⟨?_, ?_, ?_, ?_⟩
      · cases op <;>
          simp_all [exprToInlineText, data_append]
      · cases op <;>
          simp_all [exprToInlineText, data_append, List.mem_append] <;> decide
      · cases op <;>
          simp_all [exprToLatex, data_append, latexWrap_ne_nil]
      · cases op <;>
          simp_all [exprToLatex, data_append, List.mem_append] <;>
          (first
            | exact ⟨latexWrap_no_caret _ _ _ il4, by decide, latexWrap_no_caret _ _ _ ir4⟩
            | exact ⟨latexWrap_no_caret _ _ _ il4, latexWrap_no_caret _ _ _ ir4⟩)
  | .raw t, h1, _ => by simp [onlyArithNodes] at h1
  | .group b e, h1, _ => by simp [onlyArithNodes] at h1
  | .unary o e, h1, _ => by simp [onlyArithNodes] at h1
  | .member o m, h1, _ => by simp [onlyArithNodes] at h1
  | .index o ix, h1, _ => by simp [onlyArithNodes] at h1
  | .call f a, h1, _ => by simp [onlyArithNodes] at h1
  | .new c a, h1, _ => by simp [onlyArithNodes] at h1

theorem renderers_pure_arith_witness :
    (exprToInlineText (Expr.binary .div (Expr.number "3") (Expr.ident "x"))).data ≠ [] ∧
      ¬ '^' ∈ (exprToInlineText (Expr.binary .div (Expr.number "3") (Expr.ident "x"))).data ∧
      (exprToLatex (Expr.binary .div (Expr.number "3") (Expr.ident "x"))).data ≠ [] ∧
      ¬ '^' ∈ (exprToLatex (Expr.binary .div (Expr.number "3") (Expr.ident "x"))).data :=
  renderers_pure_arith (Expr.binary .div (Expr.number "3") (Expr.ident "x"))
    (by decide) (by decide)

/-! ## The overlap resolver (pickLargestNonOverlapping in extension.ts) -/

/-- A document position: line and character, compared lexicographically
exactly as VS Code positions are. -/
structure Pos where
  line : Nat
  character : Nat
  deriving DecidableEq, Repr

/-- start ≤ b in the lexicographic position order. -/
def posLE (a b : Pos) : Bool :=
  a.line < b.line || (a.line = b.line && a.character ≤ b.character)

/-- The later of two positions. -/
def posMax (a b : Pos) : Pos := if posLE a b then b else a

/-- The earlier of two positions. -/
def posMin (a b : Pos) : Pos := if posLE a b then a else b

/-- A range of the host editor: a start and a stop position (named end in
the source, a reserved word here). -/
structure Range where
  start : Pos
  stop : Pos
  deriving DecidableEq, Repr

/-- Range.intersection(other) returns a (possibly empty, still truthy)
range exactly when the later start is not after the earlier end, so the
resolver's intersection test holds precisely in this case.  Both branches
of the source's inner check set overlaps, so containment needs no separate
model. -/
def rangesIntersect (a b : Range) : Bool :=
  posLE (posMax a.start b.start) (posMin a.stop b.stop)

/-- A candidate match as the resolver sees it.  The source's AnyMatch union
carries detector-specific payload fields, but the resolver reads only the
range, so the payloads are not modelled here. -/
structure AnyMatch where
  range : Range
  deriving DecidableEq, Repr

/-- The sort comparator of pickLargestNonOverlapping: start ascending
(line, then character), and for equal starts the end descending (longer
first). -/
def cmpMatches (a b : AnyMatch) : Int :=
  if a.range.start.line ≠ b.range.start.line then
    (a.range.start.line : Int) - b.range.start.line
  else if a.range.start.character ≠ b.range.start.character then
    (a.range.start.character : Int) - b.range.start.character
  else if a.range.stop.line ≠ b.range.stop.line then
    (b.range.stop.line : Int) - a.range.stop.line
  else (b.range.stop.character : Int) - a.range.stop.character

/-- Stable insertion: the new element goes before the first element it
strictly precedes under the comparator, hence after every earlier-processed
element it ties with. -/
def insertSorted (x : AnyMatch) : List AnyMatch → List AnyMatch
  | [] => [x]
  | y :: rest => if cmpMatches x y < 0 then x :: y :: rest else y :: insertSorted x rest

/-- The Array.prototype.sort call of the resolver.  That sort is stable and
the comparator is a total preorder, which determines the sorted order
uniquely; this left-to-right stable insertion sort produces that order. -/
def sortMatches (l : List AnyMatch) : List AnyMatch :=
  l.foldl (fun acc x => insertSorted x acc) []

/-- The keeping loop of pickLargestNonOverlapping: walk the sorted
candidates, dropping any that intersects an already-kept match and
appending the rest. -/
def pickLoop : List AnyMatch → List AnyMatch → List AnyMatch
  | kept, [] => kept
  | kept, c :: rest =>
      if kept.any (fun k => rangesIntersect k.range c.range) then pickLoop kept rest
      else pickLoop (kept ++ [c]) rest

/-- pickLargestNonOverlapping from extension.ts. -/
def pickLargestNonOverlapping (ms : List AnyMatch) : List AnyMatch :=
  pickLoop [] (sortMatches ms)

set_option linter.unnecessarySeqFocus false in
theorem mem_insertSorted (m x : AnyMatch) (l : List AnyMatch) :
    m ∈ insertSorted x l ↔ m = x ∨ m ∈ l := by
  induction l with
  | nil => simp [insertSorted]
  | cons y rest ih =>
      simp only [insertSorted]
      split <;> simp [ih] <;> tauto

theorem mem_sortMatches (m : AnyMatch) (l : List AnyMatch) :
    m ∈ sortMatches l ↔ m ∈ l := by
  have h : ∀ (l acc : List AnyMatch),
      m ∈ l.foldl (fun acc x => insertSorted x acc) acc ↔ m ∈ acc ∨ m ∈ l := by
    intro l
    induction l with
    | nil => simp
    | cons x rest ih =>
        intro acc
        simp only [List.foldl_cons, ih, mem_insertSorted, List.mem_cons]
        tauto
  simpa using h l []

theorem pickLoop_mem (m : AnyMatch) :
    ∀ (items kept : List AnyMatch), m ∈ pickLoop kept items → m ∈ kept ∨ m ∈ items := by
  intro items
  induction items with
  | nil => intro kept h; exact Or.inl h
  | cons c rest ih =>
      intro kept h
      simp only [pickLoop] at h
      split at h
      · rcases ih kept h with h1 | h2
        · exact Or.inl h1
        · exact Or.inr (List.mem_cons_of_mem _ h2)
      · rcases ih (kept ++ [c]) h with h1 | h2
        · rcases List.mem_append.mp h1 with h1a | h1b
          · exact Or.inl h1a
          · simp only [List.mem_singleton] at h1b
            exact Or.inr (h1b ▸ List.mem_cons_self _ _)
        · exact Or.inr (List.mem_cons_of_mem _ h2)

theorem pickLoop_pairwise :
    ∀ (items kept : List AnyMatch),
      List.Pairwise (fun a b => rangesIntersect a.range b.range = false) kept →
      (List.Pairwise (fun a b => rangesIntersect a.range b.range = false)
        (pickLoop kept items)) := by
  intro items
  induction items with
  | nil => intro kept h; exact h
  | cons c rest ih =>
      intro kept h
      simp only [pickLoop]
      split
      · exact ih kept h
      · refine ih (kept ++ [c]) ?_
        rw [List.pairwise_append]
        refine ⟨h, List.pairwise_singleton _ _, ?_⟩
        intro a ha b hb
        simp only [List.mem_singleton] at hb
        subst hb
        rename_i hany
        exact Bool.eq_false_iff.mpr fun hc =>
          hany (List.any_eq_true.mpr ⟨a, ha, hc⟩)

theorem pickLoop_kept_subset :
    ∀ (items kept : List AnyMatch), ∀ m ∈ kept, m ∈ pickLoop kept items := by
  intro items
  induction items with
  | nil => intro kept m hm; exact hm
  | cons c rest ih =>
      intro kept m hm
      simp only [pickLoop]
      split
      · exact ih kept m hm
      · exact ih (kept ++ [c]) m (List.mem_append_left _ hm)

theorem pickLoop_maximal (m : AnyMatch) :
    ∀ (items kept : List AnyMatch), m ∈ items → ¬m ∈ pickLoop kept items →
      ∃ k ∈ pickLoop kept items, rangesIntersect k.range m.range = true := by
  intro items
  induction items with
  | nil => intro kept h; exact absurd h (List.not_mem_nil m)
  | cons c rest ih =>
      intro kept hm hnot
      by_cases hany : (kept.any fun k => rangesIntersect k.range c.range) = true
      · simp only [pickLoop] at hnot ⊢
        rw [if_pos hany] at hnot ⊢
        rcases List.mem_cons.mp hm with hmc | hmr
        · subst hmc
          rcases List.any_eq_true.mp hany with ⟨k, hk, hki⟩
          exact ⟨k, pickLoop_kept_subset rest kept k hk, hki⟩
        · exact ih kept hmr hnot
      · simp only [pickLoop] at hnot ⊢
        rw [if_neg hany] at hnot ⊢
        rcases List.mem_cons.mp hm with hmc | hmr
        · subst hmc
          exact absurd (pickLoop_kept_subset rest (kept ++ [m]) m
            (List.mem_append_right _ (List.mem_singleton.mpr rfl))) hnot
        · exact ih (kept ++ [c]) hmr hnot

/-- C3: the overlap resolver returns a subset of its input in which no two
kept ranges intersect; a candidate overlapping an already-kept match is
dropped whole (every output element is an input element, never a trimmed
range) and every dropped input intersects some kept match, so the kept
subset is maximal.  On the ranges [0,10), [2,6), [12,20) of the
specification's example the kept set is exactly {[0,10), [12,20)}, and at a
shared start the longer range wins. -/
theorem pickLargestNonOverlapping_spec (ms : List AnyMatch) :
    (∀ m ∈ pickLargestNonOverlapping ms, m ∈ ms) ∧
      List.Pairwise (fun a b => rangesIntersect a.range b.range = false)
        (pickLargestNonOverlapping ms) ∧
      (∀ m ∈ ms, ¬m ∈ pickLargestNonOverlapping ms →
        ∃ k ∈ pickLargestNonOverlapping ms, rangesIntersect k.range m.range = true) ∧
      pickLargestNonOverlapping
          [⟨⟨⟨0, 0⟩, ⟨0, 10⟩⟩⟩, ⟨⟨⟨0, 2⟩, ⟨0, 6⟩⟩⟩, ⟨⟨⟨0, 12⟩, ⟨0, 20⟩⟩⟩] =
        [⟨⟨⟨0, 0⟩, ⟨0, 10⟩⟩⟩, ⟨⟨⟨0, 12⟩, ⟨0, 20⟩⟩⟩] ∧
      pickLargestNonOverlapping [⟨⟨⟨0, 0⟩, ⟨0, 5⟩⟩⟩, ⟨⟨⟨0, 0⟩, ⟨0, 9⟩⟩⟩] =
        [⟨⟨⟨0, 0⟩, ⟨0, 9⟩⟩⟩] := by
  refine ⟨?_, ?_, ?_, by decide, by decide⟩
  · intro m hm
    rcases pickLoop_mem m _ [] hm with h | h
    · exact absurd h (List.not_mem_nil m)
    · exact (mem_sortMatches m ms).mp h
  · exact pickLoop_pairwise _ [] List.Pairwise.nil
  · intro m hm hnot
    exact pickLoop_maximal m _ [] ((mem_sortMatches m ms).mpr hm) hnot

theorem pickLargestNonOverlapping_spec_witness :
    (⟨⟨⟨0, 0⟩, ⟨0, 10⟩⟩⟩ : AnyMatch) ∈
      [(⟨⟨⟨0, 0⟩, ⟨0, 10⟩⟩⟩ : AnyMatch), ⟨⟨⟨0, 2⟩, ⟨0, 6⟩⟩⟩, ⟨⟨⟨0, 12⟩, ⟨0, 20⟩⟩⟩] :=
  (pickLargestNonOverlapping_spec
      [⟨⟨⟨0, 0⟩, ⟨0, 10⟩⟩⟩, ⟨⟨⟨0, 2⟩, ⟨0, 6⟩⟩⟩, ⟨⟨⟨0, 12⟩, ⟨0, 20⟩⟩⟩]).1
    ⟨⟨⟨0, 0⟩, ⟨0, 10⟩⟩⟩ (by decide)

/-! ## The power-call detector (findPowCalls) -/

/-- The loop of splitTwoArgs: scan for the first comma at zero paren,
brace and bracket depth (depths clamped at zero by Math.max), and split
there; either side empty after trimming, or no such comma, means no
match. -/
def splitTwoArgsLoop (t : List Char) (start endIdx : Nat) :
    Nat → Nat → Nat → Nat → Nat → Option (List Char × List Char)
  | 0, _, _, _, _ => none
  | fuel+1, i, dp, db, dk =>
      if i ≥ endIdx then none
      else
        let ch := (chAt t i).getD '\x00'
        if ch = '(' then splitTwoArgsLoop t start endIdx fuel (i + 1) (dp + 1) db dk
        else if ch = ')' then splitTwoArgsLoop t start endIdx fuel (i + 1) (dp - 1) db dk
        else if ch = '\x7b' then splitTwoArgsLoop t start endIdx fuel (i + 1) dp (db + 1) dk
        else if ch = '\x7d' then splitTwoArgsLoop t start endIdx fuel (i + 1) dp (db - 1) dk
        else if ch = '[' then splitTwoArgsLoop t start endIdx fuel (i + 1) dp db (dk + 1)
        else if ch = ']' then splitTwoArgsLoop t start endIdx fuel (i + 1) dp db (dk - 1)
        else if ch = ',' && dp = 0 && db = 0 && dk = 0 then
          let a := trimJS (slice t start i)
          let b := trimJS (slice t (i + 1) endIdx)
          if a.isEmpty || b.isEmpty then none else some (a, b)
        else splitTwoArgsLoop t start endIdx fuel (i + 1) dp db dk

/-- splitTwoArgs(maskedText, start, end) from the power-call detector. -/
def splitTwoArgs (t : List Char) (start endIdx : Nat) :
    Option (List Char × List Char) :=
  splitTwoArgsLoop t start endIdx (endIdx + 1 - start) start 0 0 0

/-- One repetition of the qualified-prefix group of the power-call regex:
a word boundary, an identifier, then a whitespace-tolerant dot; returns
the position after the dot's trailing whitespace. -/
def powSegment (t : List Char) (p : Nat) : Option Nat :=
  if (decide (p = 0) || !((chAt t (p - 1)).any isIdentPart)) &&
      (chAt t p).any isIdentStart then
    let e := identEnd t p
    let j := skipWs t e
    if chAt t j = some '.' then some (skipWs t (j + 1)) else none
  else none

/-- The mandatory tail of the power-call regex: the characters of a
Math . pow ( call with optional whitespace around the dot and before the
parenthesis (no word boundary precedes it); returns the position after
the opening parenthesis. -/
def powTail (t : List Char) (p : Nat) : Option Nat :=
  if startsWithAt t "Math".data p then
    let j := skipWs t (p + 4)
    if chAt t j = some '.' then
      let j2 := skipWs t (j + 1)
      if startsWithAt t "pow".data j2 then
        let j3 := skipWs t (j2 + 3)
        if chAt t j3 = some '(' then some (j3 + 1) else none
      else none
    else none
  else none

/-- The greedy star over prefix segments with regex backtracking: take one
more segment if the rest can still match, otherwise match the tail here. -/
def powSeqMatch (t : List Char) : Nat → Nat → Option Nat
  | 0, p => powTail t p
  | fuel+1, p =>
      match powSegment t p with
      | some q =>
          match powSeqMatch t fuel q with
          | some e => some e
          | none => powTail t p
      | none => powTail t p

/-- The global exec of the power-call regex: the first match whose start
is at or after the scan position, returning its start and end (the
position after the opening parenthesis). -/
def powExecFrom (t : List Char) : Nat → Nat → Option (Nat × Nat)
  | 0, _ => none
  | fuel+1, p =>
      if p > t.length then none
      else
        match powSeqMatch t (t.length + 1) p with
        | some e => some (p, e)
        | none => powExecFrom t fuel (p + 1)

/-- A power-call match: the source's PowMatch with the range kept as the
pair of character offsets that positionAt is applied to. -/
structure PowMatch where
  startOff : Nat
  stopOff : Nat
  calleeText : String
  baseText : String
  expText : String
  baseExpr : Expr
  expExpr : Expr
  latex : String
  inlineText : String
  deriving Repr

/-- formatPowInline: superscript digits for a bare integer-literal
exponent, otherwise a caret-parenthesized exponent. -/
def formatPowInline (base exp : Expr) : String :=
  let baseText :=
    if exprContainsOperator base then "(" ++ exprToInlineText base ++ ")"
    else exprToInlineText base
  match exp with
  | .number v =>
      match toSuperscriptDigits v with
      | some sup => baseText ++ sup
      | none => baseText ++ "^(" ++ exprToInlineText exp ++ ")"
  | _ => baseText ++ "^(" ++ exprToInlineText exp ++ ")"

/-- The while-loop of findPowCalls: each regex hit is discarded when it
sits immediately after an identifier character or a dot, has no balanced
closing parenthesis, does not split into two non-empty arguments, or has a
caret in either argument; otherwise the two arguments are parsed (falling
back to raw leaves) and the match is emitted with its rendered strings.
After an emitted match scanning resumes after the closing parenthesis,
otherwise at the end of the regex hit. -/
def findPowLoop (text masked : List Char) :
    Nat → Nat → List PowMatch → List PowMatch
  | 0, _, acc => acc
  | fuel+1, li, acc =>
      match powExecFrom masked (masked.length + 2) li with
      | none => acc
      | some (start, matchEnd) =>
          if (match (if start > 0 then chAt masked (start - 1) else none) with
              | some c => isIdentPart c || c = '.'
              | none => false) then
            findPowLoop text masked fuel matchEnd acc
          else
            let openParen := matchEnd - 1
            match findMatching masked openParen '(' ')' with
            | none => findPowLoop text masked fuel matchEnd acc
            | some closeParen =>
                match splitTwoArgs masked (openParen + 1) closeParen with
                | none => findPowLoop text masked fuel matchEnd acc
                | some (a, b) =>
                    if a.contains '^' || b.contains '^' then
                      findPowLoop text masked fuel matchEnd acc
                    else
                      let baseExpr := (parseExpression ⟨a⟩).getD (.raw ⟨a⟩)
                      let expExpr := (parseExpression ⟨b⟩).getD (.raw ⟨b⟩)
                      let baseLatexRaw := exprToLatex baseExpr
                      let baseLatex :=
                        if exprContainsOperator baseExpr then
                          "\\left(" ++ baseLatexRaw ++ "\\right)"
                        else baseLatexRaw
                      let latex :=
                        "\x7b" ++ baseLatex ++ "\x7d^\x7b" ++ exprToLatex expExpr ++ "\x7d"
                      let m : PowMatch :=
                        { startOff := start
                          stopOff := closeParen + 1
                          calleeText := ⟨trimJS (slice text start openParen)⟩
                          baseText := ⟨a⟩
                          expText := ⟨b⟩
                          baseExpr := baseExpr
                          expExpr := expExpr
                          latex := latex
                          inlineText := formatPowInline baseExpr expExpr }
                      findPowLoop text masked fuel (closeParen + 1) (acc ++ [m])

/-- findPowCalls(document, maskedText) from the power-call detector; the
document argument is its full text. -/
def findPowCalls (text masked : String) : List PowMatch :=
  findPowLoop text.data masked.data (masked.data.length + 2) 0 []

/-- C8: on the line auto x = 3/4*Math.pow(9,2) the power-call detector
returns exactly one match, with base text 9, exponent text 2 and typeset
output {9}^{2}. -/
theorem findPowCalls_example :
    (findPowCalls "auto x = 3/4*Math.pow(9,2)"
        (maskJavaNonCode "auto x = 3/4*Math.pow(9,2)")).map
      (fun m => (m.baseText, m.expText, m.latex)) =
      [("9", "2", "\x7b9\x7d^\x7b2\x7d")] := rfl

/-- C10: the power-call detector never checks the argument count:
splitTwoArgs cuts at the first top-level comma only, so Math.pow(a, b, c)
still yields a match whose base text is a and whose exponent text is the
remainder b, c. -/
theorem findPowCalls_three_args :
    splitTwoArgs "a, b, c".data 0 7 = some ("a".data, "b, c".data) ∧
      (findPowCalls "Math.pow(a, b, c)"
          (maskJavaNonCode "Math.pow(a, b, c)")).map
        (fun m => (m.baseText, m.expText)) = [("a", "b, c")] :=
  ⟨rfl, rfl⟩

/-! ## The generic-expression detector (findExpressions) -/

/-- isStartChar: a character that may start an expression match. -/
def isStartChar (c : Char) : Bool :=
  isIdentPart c || c = '(' || c = '\x7b' || c = '[' || c = '+' || c = '-'

/-- isBoundaryChar: not an identifier character and not a dot (the empty
out-of-range lookup of the source also counts as a boundary, as does the
NUL sentinel standing in for it here). -/
def isBoundaryChar (c : Char) : Bool := !(isIdentPart c || c = '.')

/-- Whether the parse produced a bare call or construct node, which the
detector refuses to surface on its own. -/
def isBareInvocation : Expr → Bool
  | .call _ _ => true
  | .new _ _ => true
  | _ => false

/-- The trailing-whitespace trim of findExpressions: decrement the end over
whitespace without passing the start. -/
def trimEndWs (t : List Char) (i e : Nat) : Nat :=
  e - ((slice t i e).reverse.takeWhile isWsChar).length

/-- An expression match: the source's ExpressionMatch with the range kept
as the pair of character offsets handed to positionAt. -/
structure ExpressionMatch where
  startOff : Nat
  stopOff : Nat
  exprText : String
  expr : Expr
  latex : String
  inlineText : String

/-- The scanning loop of findExpressions: at each position that holds a
start character and sits on a token boundary, parse speculatively; drop
bare call or construct results, trim trailing whitespace, require a
non-empty span with no caret, a boundary after the match and at least one
binary operator, and otherwise emit the match and resume after it. -/
def findExprLoop (text masked : List Char) (maxMatches : Nat) :
    Nat → Nat → List ExpressionMatch → List ExpressionMatch
  | 0, _, acc => acc
  | fuel+1, i, acc =>
      if i < masked.length && acc.length < maxMatches then
        if !isStartChar ((chAt masked i).getD '\x00') then
          findExprLoop text masked maxMatches fuel (i + 1) acc
        else if i > 0 && !isBoundaryChar ((chAt masked (i - 1)).getD '\x00') then
          findExprLoop text masked maxMatches fuel (i + 1) acc
        else
          match parseExpressionAt ⟨masked⟩ i with
          | none => findExprLoop text masked maxMatches fuel (i + 1) acc
          | some (e, endP) =>
              if isBareInvocation e then
                findExprLoop text masked maxMatches fuel (i + 1) acc
              else
                let endT := trimEndWs masked i endP
                if endT ≤ i then findExprLoop text masked maxMatches fuel (i + 1) acc
                else if (slice masked i endT).contains '^' then
                  findExprLoop text masked maxMatches fuel endT acc
                else if endT < masked.length &&
                    !isBoundaryChar ((chAt masked endT).getD '\x00') then
                  findExprLoop text masked maxMatches fuel (i + 1) acc
                else if !exprContainsOperator e then
                  findExprLoop text masked maxMatches fuel (max endT (i + 1)) acc
                else
                  let m : ExpressionMatch :=
                    { startOff := i
                      stopOff := endT
                      exprText := ⟨slice text i endT⟩
                      expr := e
                      latex := exprToLatex e
                      inlineText := exprToInlineText e }
                  findExprLoop text masked maxMatches fuel endT (acc ++ [m])
      else acc

/-- findExpressions(document, maskedText, maxMatches = 500) from the
generic-expression detector. -/
def findExpressions (text masked : String) (maxMatches : Nat := 500) :
    List ExpressionMatch :=
  findExprLoop text.data masked.data maxMatches (masked.data.length + 2) 0 []

/-- The guarantees the loop's guards give every emitted match. -/
def expressionMatchSound (masked : List Char) (m : ExpressionMatch) : Prop :=
  isBareInvocation m.expr = false ∧
    (slice masked m.startOff m.stopOff).contains '^' = false ∧
    exprContainsOperator m.expr = true

theorem findExprLoop_sound (text masked : List Char) (maxMatches : Nat) :
    ∀ (fuel i : Nat) (acc : List ExpressionMatch),
      (∀ m ∈ acc, expressionMatchSound masked m) →
      ∀ m ∈ findExprLoop text masked maxMatches fuel i acc,
        expressionMatchSound masked m := by
  intro fuel
  induction fuel with
  | zero => intro i acc hacc m hm; exact hacc m hm
  | succ n ih =>
      intro i acc hacc m hm
      simp only [findExprLoop] at hm
      split at hm
      · split at hm
        · exact ih _ _ hacc m hm
        · split at hm
          · exact ih _ _ hacc m hm
          · split at hm
            · exact ih _ _ hacc m hm
            · rename_i e endP heq
              split at hm
              · exact ih _ _ hacc m hm
              · split at hm
                · exact ih _ _ hacc m hm
                · split at hm
                  · exact ih _ _ hacc m hm
                  · split at hm
                    · exact ih _ _ hacc m hm
                    · split at hm
                      · exact ih _ _ hacc m hm
                      · refine ih _ _ ?_ m hm
                        intro m' hm'
                        rcases List.mem_append.mp hm' with h1 | h2
                        · exact hacc m' h1
                        · rcases List.mem_singleton.mp h2 with rfl
                          rename_i hinv hle hcaret hbound hop
                          refine ⟨by simpa using hinv, by simpa using hcaret, ?_⟩
                          simpa using hop
      · exact hacc m hm

/-- C6: every match the generic-expression detector returns has a parsed
tree that is not a bare call or construct node, a matched span of the
masked text containing no caret, and a tree containing at least one binary
operator (a bare identifier or literal is never emitted). -/
theorem findExpressions_sound (text masked : String) (maxMatches : Nat)
    (m : ExpressionMatch) (hm : m ∈ findExpressions text masked maxMatches) :
    isBareInvocation m.expr = false ∧
      (slice masked.data m.startOff m.stopOff).contains '^' = false ∧
      exprContainsOperator m.expr = true :=
  findExprLoop_sound text.data masked.data maxMatches _ 0 []
    (fun _ hm' => absurd hm' (List.not_mem_nil _)) m hm

theorem findExpressions_sound_witness :
    isBareInvocation (Expr.binary .add (Expr.ident "a") (Expr.ident "b")) = false ∧
      (slice (maskJavaNonCode "a+b").data 0 3).contains '^' = false ∧
      exprContainsOperator (Expr.binary .add (Expr.ident "a") (Expr.ident "b")) = true :=
  findExpressions_sound "a+b" (maskJavaNonCode "a+b") 500
    { startOff := 0
      stopOff := 3
      exprText := "a+b"
      expr := Expr.binary .add (Expr.ident "a") (Expr.ident "b")
      latex := "a + b"
      inlineText := "a+b" }
    (List.mem_singleton_self _)

/-! ## The loop-summation detector (findForLoopSummations)

The header and body idioms are recognised in the source with JavaScript
regexes built around the loop's index identifier (escapeRegExp makes that
identifier a literal, and identifiers contain no metacharacters).  Each
regex is modelled by a matcher with JavaScript semantics: leftmost match
first, alternatives in written order, greedy quantifiers with
backtracking.  A \s* quantifier followed by a non-whitespace token needs
no backtracking, so those are plain whitespace skips; the two places where
a greedy quantifier interacts with what follows (the trailing
\s*([^;]+) groups and the [^;]+ of the third accumulation idiom) are
modelled with their exact backtracking order. -/

/-- The regex word boundary \b: a word character on exactly one side of
the position. -/
def wordBoundaryAt (s : List Char) (p : Nat) : Bool :=
  (decide (p > 0) && (chAt s (p - 1)).any isIdentPart) !=
    (chAt s p).any isIdentPart

/-- The trailing group \s*([^;]+)$ applied to the remainder of the text:
no semicolon may remain, at least one character must be left for the
capture, and the greedy whitespace skip backs off just enough to leave
one. -/
def tailCaptureToEnd (rest : List Char) : Option (List Char) :=
  if rest.isEmpty || rest.contains ';' then none
  else
    let wsLen := (rest.takeWhile isWsChar).length
    some (rest.drop (min wsLen (rest.length - 1)))

/-- The trailing group \s*([^;]+); applied to the remainder of the text:
the capture runs to the first semicolon, which must exist and not come
first; the greedy whitespace skip backs off just enough to leave one
captured character. -/
def tailCaptureToSemi (rest : List Char) : Option (List Char) :=
  let semiIdx := (rest.takeWhile (fun c => !(c = ';'))).length
  if semiIdx = rest.length then none
  else if semiIdx = 0 then none
  else
    let wsLen := (rest.takeWhile isWsChar).length
    some (slice rest (min wsLen (semiIdx - 1)) semiIdx)

/-- Scan positions left to right for the first one where the matcher
succeeds: the leftmost-match rule of RegExp.exec. -/
def scanLeftmost {α : Type} (f : List Char → Nat → Option α) (s : List Char) :
    Nat → Nat → Option α
  | 0, _ => none
  | fuel+1, p =>
      if p > s.length then none
      else
        match f s p with
        | some r => some r
        | none => scanLeftmost f s fuel (p + 1)

/-- The keyword alternation (?:var|let|const|int|long|size_t|auto)? of the
initialization regex, alternatives in written order with the empty option
last. -/
def initKeywords : List (List Char) :=
  ["var".data, "let".data, "const".data, "int".data, "long".data,
    "size_t".data, "auto".data, []]

/-- The part of the initialization regex after the optional keyword:
\s*([A-Za-z_]\w*)\s*=\s*([^;]+)$ starting at the given position, yielding
the index identifier and the raw lower-bound capture. -/
def initContFrom (s : List Char) (q : Nat) : Option (List Char × List Char) :=
  let q1 := skipWs s q
  if (chAt s q1).any isIdentStart then
    let e := identEnd s q1
    let q2 := skipWs s e
    if chAt s q2 = some '=' then
      match tailCaptureToEnd (s.drop (q2 + 1)) with
      | some cap => some (slice s q1 e, cap)
      | none => none
    else none
  else none

/-- One attempt of the initialization regex at a position: a word
boundary, then the first keyword alternative (or none) whose continuation
matches. -/
def initTryAt (s : List Char) (p : Nat) : Option (List Char × List Char) :=
  if wordBoundaryAt s p then
    initKeywords.findSome? fun kw =>
      if startsWithAt s kw p then initContFrom s (p + kw.length) else none
  else none

/-- initRe.exec on the trimmed initialization clause. -/
def initReExec (s : List Char) : Option (List Char × List Char) :=
  scanLeftmost initTryAt s (s.length + 2) 0

/-- The anchored condition regex ^V\s*(<=|<)\s*([^;]+)$ for index
identifier V; the Boolean is true for <=. -/
def condReExec (v s : List Char) : Option (Bool × List Char) :=
  if startsWithAt s v 0 then
    let q1 := skipWs s v.length
    if startsWithAt s "<=".data q1 then
      (tailCaptureToEnd (s.drop (q1 + 2))).map fun cap => (true, cap)
    else if chAt s q1 = some '<' then
      (tailCaptureToEnd (s.drop (q1 + 1))).map fun cap => (false, cap)
    else none
  else none

/-- One of the four update alternatives ++V, V++, V += 1 and V = V + 1
(whitespace-tolerant) matching at a position; the V are plain substring
matches, exactly as the unanchored source regex written with escapeRegExp
gives. -/
def updMatchAt (v s : List Char) (p : Nat) : Bool :=
  (startsWithAt s "++".data p && startsWithAt s v (skipWs s (p + 2))) ||
  (startsWithAt s v p && startsWithAt s "++".data (skipWs s (p + v.length))) ||
  (startsWithAt s v p &&
    (let q := skipWs s (p + v.length)
     startsWithAt s "+=".data q && (chAt s (skipWs s (q + 2)) = some '1'))) ||
  (startsWithAt s v p &&
    (let q := skipWs s (p + v.length)
     (chAt s q = some '=') &&
       (let q2 := skipWs s (q + 1)
        startsWithAt s v q2 &&
          (let q3 := skipWs s (q2 + v.length)
           (chAt s q3 = some '+') && (chAt s (skipWs s (q3 + 1)) = some '1')))))

/-- updateRe.test: the unanchored search succeeds somewhere in the update
clause.  Note this is substring containment, not an exact match of the
whole clause. -/
def updateReTest (v s : List Char) : Bool :=
  (List.range (s.length + 1)).any (updMatchAt v s)

/-- The result of parseForHeader: index variable, lower bound text and
(inclusive) upper bound text. -/
structure ForHeader where
  indexVar : String
  lower : String
  upper : String
  deriving DecidableEq, Repr

/-- String.prototype.split(';'). -/
def splitOnSemiAux : List Char → List Char → List (List Char)
  | [], cur => [cur.reverse]
  | c :: rest, cur =>
      if c = ';' then cur.reverse :: splitOnSemiAux rest []
      else splitOnSemiAux rest (c :: cur)

/-- parseForHeader from the loop-summation detector: split the header on
semicolons; the initialization must bind an identifier, the condition must
compare the same identifier with < or <=, and the update clause must pass
the unanchored canonical-increment search; a strict < turns the bound into
rhs - 1. -/
def parseForHeader (header : String) : Option ForHeader :=
  let parts := splitOnSemiAux header.data []
  if parts.length < 3 then none
  else
    match initReExec (trimJS (parts.getD 0 [])) with
    | none => none
    | some (indexVar, lowerRaw) =>
        match condReExec indexVar (trimJS (parts.getD 1 [])) with
        | none => none
        | some (isLE, rhsRaw) =>
            if updateReTest indexVar (trimJS (parts.getD 2 [])) then
              let rhs := trimJS rhsRaw
              some { indexVar := ⟨indexVar⟩
                     lower := ⟨trimJS lowerRaw⟩
                     upper := if isLE then ⟨rhs⟩ else ⟨rhs ++ " - 1".data⟩ }
            else none

/-- One attempt of the first accumulation regex
\b([A-Za-z_]\w*)\s*\+=\s*([^;]+); at a position. -/
def plusEqTryAt (s : List Char) (p : Nat) : Option (List Char × List Char) :=
  if wordBoundaryAt s p && (chAt s p).any isIdentStart then
    let e := identEnd s p
    let q := skipWs s e
    if startsWithAt s "+=".data q then
      (tailCaptureToSemi (s.drop (q + 2))).map fun cap => (slice s p e, cap)
    else none
  else none

/-- One attempt of the second accumulation regex
\b([A-Za-z_]\w*)\s*=\s*\1\s*\+\s*([^;]+); at a position. -/
def sumEqLeftTryAt (s : List Char) (p : Nat) : Option (List Char × List Char) :=
  if wordBoundaryAt s p && (chAt s p).any isIdentStart then
    let e := identEnd s p
    let acc := slice s p e
    let q := skipWs s e
    if chAt s q = some '=' then
      let q2 := skipWs s (q + 1)
      if startsWithAt s acc q2 then
        let q3 := skipWs s (q2 + acc.length)
        if chAt s q3 = some '+' then
          (tailCaptureToSemi (s.drop (q3 + 1))).map fun cap => (acc, cap)
        else none
      else none
    else none
  else none

/-- The tail \s*\+\s*\1\s*; of the third accumulation regex at a
position. -/
def sumEqRightTail (acc s : List Char) (r : Nat) : Bool :=
  let r1 := skipWs s r
  (chAt s r1 = some '+') &&
    (let r2 := skipWs s (r1 + 1)
     startsWithAt s acc r2 &&
       (chAt s (skipWs s (r2 + acc.length)) = some ';'))

/-- One attempt of the third accumulation regex
\b([A-Za-z_]\w*)\s*=\s*([^;]+)\s*\+\s*\1\s*; at a position.  Here the
greedy \s* and the greedy capture genuinely backtrack against the tail:
the whitespace skip backs off last, the capture backs off first, and the
first combination (longest whitespace, then longest capture) whose tail
matches wins. -/
def sumEqRightTryAt (s : List Char) (p : Nat) : Option (List Char × List Char) :=
  if wordBoundaryAt s p && (chAt s p).any isIdentStart then
    let e := identEnd s p
    let acc := slice s p e
    let q := skipWs s e
    if chAt s q = some '=' then
      let rest := s.drop (q + 1)
      let wsMax := (rest.takeWhile isWsChar).length
      (List.range (wsMax + 1)).reverse.findSome? fun k =>
        let run := ((rest.drop k).takeWhile (fun c => !(c = ';'))).length
        (List.range run).reverse.findSome? fun m' =>
          if sumEqRightTail acc s (q + 1 + k + m' + 1) then
            some (acc, slice rest k (k + m' + 1))
          else none
    else none
  else none

/-- extractSummation from the loop-summation detector: the three
accumulation idioms tried in priority order, the captured term trimmed. -/
def extractSummation (body : List Char) : Option (List Char × List Char) :=
  match scanLeftmost plusEqTryAt body (body.length + 2) 0 with
  | some (acc, term) => some (acc, trimJS term)
  | none =>
      match scanLeftmost sumEqLeftTryAt body (body.length + 2) 0 with
      | some (acc, term) => some (acc, trimJS term)
      | none =>
          match scanLeftmost sumEqRightTryAt body (body.length + 2) 0 with
          | some (acc, term) => some (acc, trimJS term)
          | none => none

/-- String.prototype.indexOf(pat, from). -/
def indexOfFrom (t pat : List Char) : Nat → Nat → Option Nat
  | 0, _ => none
  | fuel+1, i =>
      if i + pat.length > t.length then none
      else if startsWithAt t pat i then some i
      else indexOfFrom t pat fuel (i + 1)

/-- A loop-summation match: the source's SumMatch with the range kept as
the pair of character offsets handed to positionAt. -/
structure SumMatch where
  startOff : Nat
  stopOff : Nat
  indexVar : String
  lowerText : String
  upperText : String
  accumulatorText : String
  termText : String
  latex : String
  inlineText : String
  deriving Repr

/-- The scanning loop of findForLoopSummations: find each word-bounded
for, require a parenthesized header that parseForHeader accepts, locate
the brace-delimited or single-statement body, extract an accumulation
idiom, refuse carets in the captured fragments, and emit the match with
its sigma renderings. -/
def findSumLoop (text masked : List Char) : Nat → Nat → List SumMatch → List SumMatch
  | 0, _, acc => acc
  | fuel+1, i, acc =>
      match indexOfFrom masked "for".data (masked.length + 2) i with
      | none => acc
      | some idx =>
          if ((if idx > 0 then chAt masked (idx - 1) else none).any isIdentPart) ||
              ((chAt masked (idx + 3)).any isIdentPart) then
            findSumLoop text masked fuel (idx + 3) acc
          else
            let j := skipWs masked (idx + 3)
            if !(chAt masked j = some '(') then
              findSumLoop text masked fuel (idx + 3) acc
            else
              match findMatching masked j '(' ')' with
              | none => findSumLoop text masked fuel (idx + 3) acc
              | some closeParen =>
                  match parseForHeader ⟨slice masked (j + 1) closeParen⟩ with
                  | none => findSumLoop text masked fuel (closeParen + 1) acc
                  | some header =>
                      let bodyStart := skipWs masked (closeParen + 1)
                      let bodyInfo : Option (Nat × List Char) :=
                        if chAt masked bodyStart = some '\x7b' then
                          match findMatching masked bodyStart '\x7b' '\x7d' with
                          | none => none
                          | some bodyEnd =>
                              some (bodyEnd, slice masked (bodyStart + 1) bodyEnd)
                        else
                          match indexOfFrom masked [';'] (masked.length + 2) bodyStart with
                          | none => none
                          | some semi => some (semi + 1, slice masked bodyStart semi)
                      match bodyInfo with
                      | none => findSumLoop text masked fuel (closeParen + 1) acc
                      | some (bodyEnd, bodyText) =>
                          match extractSummation bodyText with
                          | none => findSumLoop text masked fuel (bodyEnd + 1) acc
                          | some (accName, termText) =>
                              if termText.contains '^' ||
                                  header.lower.data.contains '^' ||
                                  header.upper.data.contains '^' then
                                findSumLoop text masked fuel (bodyEnd + 1) acc
                              else
                                let lowerExpr :=
                                  (parseExpression header.lower).getD (.raw header.lower)
                                let upperExpr :=
                                  (parseExpression header.upper).getD (.raw header.upper)
                                let termExpr :=
                                  (parseExpression ⟨termText⟩).getD (.raw ⟨termText⟩)
                                let accExpr :=
                                  (parseExpression ⟨accName⟩).getD (.raw ⟨accName⟩)
                                let sumLatex :=
                                  "\\sum_\x7b" ++ header.indexVar ++ "=" ++
                                    exprToLatex lowerExpr ++ "\x7d^\x7b" ++
                                    exprToLatex upperExpr ++ "\x7d " ++ exprToLatex termExpr
                                let sumInline :=
                                  "Σ_" ++ header.indexVar ++ "=" ++
                                    exprToInlineText lowerExpr ++ ".." ++
                                    exprToInlineText upperExpr ++ " " ++
                                    exprToInlineText termExpr
                                let m : SumMatch :=
                                  { startOff := idx
                                    stopOff := bodyEnd
                                    indexVar := header.indexVar
                                    lowerText := header.lower
                                    upperText := header.upper
                                    accumulatorText := ⟨accName⟩
                                    termText := ⟨termText⟩
                                    latex := exprToLatex accExpr ++ " = " ++ sumLatex
                                    inlineText :=
                                      exprToInlineText accExpr ++ " = " ++ sumInline }
                                findSumLoop text masked fuel (bodyEnd + 1) (acc ++ [m])

/-- findForLoopSummations(document, maskedText) from the loop-summation
detector; the document argument is its full text. -/
def findForLoopSummations (text masked : String) : List SumMatch :=
  findSumLoop text.data masked.data (masked.data.length + 2) 0 []

/-- C5: the canonical counting loop with body sum += i * i yields exactly
one summation match with index i, lower bound 0, upper bound n - 1 (the
strict < n bound translated to the inclusive bound), accumulator sum and
term i * i. -/
theorem findForLoopSummations_example :
    (findForLoopSummations "for (int i = 0; i < n; i++) \x7b sum += i * i; \x7d"
        (maskJavaNonCode "for (int i = 0; i < n; i++) \x7b sum += i * i; \x7d")).map
      (fun m => (m.indexVar, m.lowerText, m.upperText, m.accumulatorText, m.termText)) =
      [("i", "0", "n - 1", "sum", "i * i")] := rfl

/-- C4 counterexample: the update clause i += 10 is none of the canonical
single-step increment forms, yet the detector still emits a summation
match for the loop, because the update test is an unanchored substring
search and i += 10 contains i += 1. -/
theorem findForLoopSummations_noncanonical_update_match :
    (findForLoopSummations "for (int i = 0; i < n; i += 10) \x7b sum += i; \x7d"
        (maskJavaNonCode "for (int i = 0; i < n; i += 10) \x7b sum += i; \x7d")).map
      (fun m => (m.indexVar, m.upperText, m.accumulatorText, m.termText)) =
      [("i", "n - 1", "sum", "i")] := rfl

/-- C4 (amended): a for-loop header is accepted only when its update
clause contains one of the canonical single-step increment patterns for
the loop's index identifier (i++, ++i, i += 1, i = i + 1, whitespace
tolerated) as a substring — containment, not exact equality, so e.g.
i += 10 passes — and the descending loop
for (i = n; i > 0; i--) { sum += i; } yields no Loop-Summation match. -/
theorem parseForHeader_update_guard (header : String) (r : ForHeader)
    (h : parseForHeader header = some r) :
    updateReTest r.indexVar.data
        (trimJS ((splitOnSemiAux header.data []).getD 2 [])) = true ∧
      findForLoopSummations "for (i = n; i > 0; i--) \x7b sum += i; \x7d"
        (maskJavaNonCode "for (i = n; i > 0; i--) \x7b sum += i; \x7d") = [] := by
  refine ⟨?_, rfl⟩
  simp only [parseForHeader] at h
  split at h
  · exact Option.noConfusion h
  · split at h
    · exact Option.noConfusion h
    · split at h
      · exact Option.noConfusion h
      · split at h
        · rcases Option.some.inj h with rfl
          rename_i hupd
          exact hupd
        · exact Option.noConfusion h

theorem parseForHeader_update_guard_witness :
    updateReTest ("i" : String).data
        (trimJS ((splitOnSemiAux ("int i = 0; i < n; i++" : String).data []).getD 2 [])) = true ∧
      findForLoopSummations "for (i = n; i > 0; i--) \x7b sum += i; \x7d"
        (maskJavaNonCode "for (i = n; i > 0; i--) \x7b sum += i; \x7d") = [] :=
  parseForHeader_update_guard "int i = 0; i < n; i++" ⟨"i", "0", "n - 1"⟩ rfl

end InlineMath
